import Mathlib

/-!
Verification of the asynchronous-I/O core of `libaio-rust` against its
specification.  The Rust sources are shallowly embedded: each Rust struct
becomes a Lean structure, each method a Lean function on it, panics become
`Option`/dedicated result constructors, and raw pool-slot pointers are
abstracted to slot indices (the pointer arithmetic in `Pool::freeptr`
recovers exactly the index).
-/

namespace Libaio

/-! ## Pool (`src/pool.rs`)

`enum Slot<T> { Free(isize), Alloc(T) }` and
`struct Pool<T> { pool: Vec<Slot<T>>, freelist: isize, used: usize }`. -/

inductive Slot (T : Type) where
  | Free (next : Int)
  | Alloc (v : T)
deriving Repr, DecidableEq

instance {T : Type} : Inhabited (Slot T) := ⟨Slot.Free (-1)⟩

structure Pool (T : Type) where
  pool : List (Slot T)
  freelist : Int
  used : Nat
deriving Repr, DecidableEq

/-- Outcome of `Pool::allocidx`: `ok idx pool'`, the `Err(init)` full case,
or a Rust panic. -/
inductive AllocRes (T : Type) where
  | ok (idx : Nat) (p : Pool T)
  | full (v : T)
  | panicked
deriving Repr, DecidableEq

namespace Pool

/-- `Pool::new(size)`: slots `Free(i-1)` for `i = 0..size`, freelist `size-1`.
The Rust `assert!(size > 0)` is irrelevant to the functional content; callers
in scope always pass `size > 0`. -/
def new (T : Type) (size : Nat) : Pool T :=
  { pool := (List.range size).map (fun i => Slot.Free ((i : Int) - 1))
    freelist := (size : Int) - 1
    used := 0 }

/-- `Pool::allocidx`: take the head of the free list; panic if that slot is
not actually `Free` (message `"idx {} not free"`) or out of range. -/
def allocidx {T : Type} (p : Pool T) (init : T) : AllocRes T :=
  let idx := p.freelist
  if idx = -1 then AllocRes.full init
  else if h : 0 ≤ idx ∧ idx.toNat < p.pool.length then
    match p.pool.get ⟨idx.toNat, h.2⟩ with
    | Slot.Free fl =>
        AllocRes.ok idx.toNat
          { pool := p.pool.set idx.toNat (Slot.Alloc init)
            freelist := fl
            used := p.used + 1 }
    | Slot.Alloc _ => AllocRes.panicked
  else AllocRes.panicked

/-- `Pool::freeidx`: NOTE the source order — `self.freelist = idx` happens
BEFORE the slot is overwritten with `Slot::Free(self.freelist)`, so the freed
slot's link is `idx` itself.  `none` models a panic (index out of range, or
freeing a slot that is already free). -/
def freeidx {T : Type} (p : Pool T) (idx : Nat) : Option (T × Pool T) :=
  if idx < p.pool.length then
    let freelist' : Int := (idx : Int)
    match p.pool.get? idx with
    | some (Slot.Alloc v) =>
        some (v, { pool := p.pool.set idx (Slot.Free freelist')
                   freelist := freelist'
                   used := p.used - 1 })
    | _ => none
  else none

/-- `Pool::limit`. -/
def limit {T : Type} (p : Pool T) : Nat := p.pool.length

/-- `Pool::avail`. -/
def avail {T : Type} (p : Pool T) : Nat := p.limit - p.used

/-- Walk the free list from `freelist`, collecting visited indices; `fuel`
bounds the walk.  Returns `none` when the walk runs out of fuel before
reaching the `-1` terminator (in particular whenever the list is cyclic,
taking `fuel = limit + 1`), or when a link is dangling. -/
def freeChainAux {T : Type} (p : Pool T) : Nat → Int → Option (List Nat)
  | 0, cur => if cur = -1 then some [] else none
  | fuel + 1, cur =>
      if cur = -1 then some []
      else if h : 0 ≤ cur ∧ cur.toNat < p.pool.length then
        match p.pool.get ⟨cur.toNat, h.2⟩ with
        | Slot.Free next => (freeChainAux p fuel next).map (cur.toNat :: ·)
        | Slot.Alloc _ => none
      else none

/-- Free chain of a pool: the indices on the free list in order, or `none`
when the free list is cyclic or otherwise corrupt. -/
def freeChain {T : Type} (p : Pool T) : Option (List Nat) :=
  freeChainAux p (p.pool.length + 1) p.freelist

/-- Decidable free-list health predicate of the spec: the free list is
acyclic, hits every `Free` slot exactly once, and `used + free length`
equals the capacity. -/
def freeListOk {T : Type} (p : Pool T) : Prop :=
  ∃ l, freeChain p = some l ∧ l.Nodup ∧
    (∀ i : Nat, i ∈ l ↔ ∃ h : i < p.pool.length,
        ∃ nxt, p.pool.get ⟨i, h⟩ = Slot.Free nxt) ∧
    p.used + l.length = p.pool.length

end Pool

/-! ## Aligned buffers (`src/aligned.rs`)

`struct AlignedBuf { buf: *mut u8, align: uint, len: uint, valid: uint }`.
The raw storage pointer is layout-only and omitted; `len` is the capacity in
bytes.  `uint` arithmetic is 64-bit and wraps, written `% 2^64` where the
source can overflow.  `none` models a failed Rust `assert!` (a panic);
`heap` reallocation is modelled as succeeding, matching the "successful
call" readings of the spec. -/

def U64 : Nat := 2 ^ 64

structure AlignedBuf where
  len : Nat
  align : Nat
  valid : Nat
deriving Repr, DecidableEq

/-- Bitwise complement within 64 bits, for the source's `!(align - 1)`. -/
def not64 (y : Nat) : Nat := (U64 - 1) - y

/-- Source helper `ispower2(n) = (n & (n - 1)) == 0`. -/
def ispower2 (n : Nat) : Bool := n &&& (n - 1) == 0

namespace AlignedBuf

/-- `AlignedBuf::alloc_uninit(size, align)`: asserts `align > 0` and
`ispower2(align)`, computes `sz = (size + align - 1) & !(align - 1)`,
asserts `sz >= size` and `sz % align == 0`, and returns a buffer of
capacity `sz` with no valid bytes. -/
def alloc_uninit (size align : Nat) : Option AlignedBuf :=
  if align > 0 ∧ ispower2 align then
    let sz := Nat.land ((size + align - 1) % U64) (not64 (align - 1))
    if sz ≥ size ∧ sz % align = 0 then
      some { len := sz, align := align, valid := 0 }
    else none
  else none

/-- `AlignedBuf::alloc(size, align)`: zeroes the storage and marks the whole
capacity valid. -/
def alloc (size align : Nat) : Option AlignedBuf :=
  (alloc_uninit size align).map (fun b => { b with valid := b.len })

/-- `AlignedBuf::extend_uninit(size)`: NOTE the source mask — it computes
`sz = (size + align - 1) & (align - 1)` (the complement `!` of the
`alloc_uninit` mask is missing), asserts `sz >= len`, and on success sets
the capacity to `sz` without touching `valid`. -/
def extend_uninit (b : AlignedBuf) (size : Nat) : Option AlignedBuf :=
  let sz := Nat.land ((size + b.align - 1) % U64) (b.align - 1)
  if sz ≥ b.len then
    if sz = b.len then some b else some { b with len := sz }
  else none

/-- `AlignedBuf::extend(size)`: runs `extend_uninit`, then, when the
capacity grew, zero-fills the appended region and sets `valid` to the new
capacity. -/
def extend (b : AlignedBuf) (size : Nat) : Option AlignedBuf :=
  match extend_uninit b size with
  | none => none
  | some b' => if b'.len > b.len then some { b' with valid := b'.len } else some b'

/-- `AlignedBuf::shrink(size)`: same missing-complement mask as
`extend_uninit`; asserts `sz <= len`, then sets both `len` and `valid`
to `sz`. -/
def shrink (b : AlignedBuf) (size : Nat) : Option AlignedBuf :=
  let sz := Nat.land ((size + b.align - 1) % U64) (b.align - 1)
  if sz ≤ b.len then some { b with len := sz, valid := sz }
  else none

/-- Length of the slice returned by `RdBuf::rdbuf` for `AlignedBuf`: the
whole capacity. -/
def rdbufLen (b : AlignedBuf) : Nat := b.len

/-- `RdBuf::rdupdate` for `AlignedBuf`: advance `valid` to `base + len`
when `base <= valid && base + len > valid`, otherwise leave it unchanged.
`none` models the `assert!` panics. -/
def rdupdate (b : AlignedBuf) (base l : Nat) : Option AlignedBuf :=
  if b.valid ≤ b.len then
    if base ≤ b.valid ∧ base + l > b.valid then
      if base + l ≤ b.len then some { b with valid := base + l } else none
    else some b
  else none

/-- Length of the slice returned by `WrBuf::wrbuf` for `AlignedBuf`: the
valid portion. -/
def wrbufLen (b : AlignedBuf) : Nat := b.valid

end AlignedBuf

/-! ## `Vec<u8>` buffer impls (`src/buf.rs`)

Only the extents matter for the claims; a vector is modelled by its length
and capacity. -/

structure VecU8 where
  len : Nat
  cap : Nat
deriving Repr, DecidableEq

namespace VecU8

/-- Length of the slice returned by `RdBuf::rdbuf` for `Vec<u8>`:
`slice::from_raw_parts_mut(p, self.capacity())` — the capacity, not the
current length. -/
def rdbufLen (v : VecU8) : Nat := v.cap

/-- `RdBuf::rdupdate` for `Vec<u8>`: `unsafe { self.set_len(base + len) }`,
unconditionally. -/
def rdupdate (v : VecU8) (base l : Nat) : VecU8 := { v with len := base + l }

/-- Length of the slice returned by `WrBuf::wrbuf` for `Vec<u8>`. -/
def wrbufLen (v : VecU8) : Nat := v.len

end VecU8

/-! ## Buffer traits (`src/buf.rs`) as classes

Only the slice extents are needed by the I/O context. -/

class RdBuf (Rb : Type) where
  rdbufLen : Rb → Nat

class WrBuf (Wb : Type) where
  wrbufLen : Wb → Nat

instance : RdBuf VecU8 := ⟨VecU8.rdbufLen⟩
instance : WrBuf VecU8 := ⟨VecU8.wrbufLen⟩
instance : RdBuf AlignedBuf := ⟨AlignedBuf.rdbufLen⟩
instance : WrBuf AlignedBuf := ⟨AlignedBuf.wrbufLen⟩

/-! ## Raw I/O context (`src/raw.rs` with the ABI of `src/aioabi.rs`)

Pool-slot pointers are abstracted to slot indices: `Pool::freeptr` recovers
exactly `(ptr - base) / size_of::<Slot<T>>()`, and `free_iocb` takes the
index directly.  The 64-bit `aio_buf` field is modelled by a provenance
value recording which source binding the pointer was taken from. -/

/-- Opcode values of `enum Iocmd` in `src/aioabi.rs`. -/
def IO_CMD_PREAD : Nat := 0
def IO_CMD_PWRITE : Nat := 1
def IO_CMD_FSYNC : Nat := 2
def IO_CMD_FDSYNC : Nat := 3
def IO_CMD_PREADV : Nat := 7
def IO_CMD_PWRITEV : Nat := 8

/-- Flag value `IOCB_FLAG_RESFD`. -/
def IOCB_FLAG_RESFD : Nat := 1

/-- One `Struct_iovec` entry built by `preadv`/`pwritev`: `iov_base` points
into the bytes of buffer number `bufIdx` of the caller's vector, `iov_len`
is that buffer's slice length. -/
structure Iovec where
  bufIdx : Nat
  len : Nat
deriving Repr, DecidableEq

/-- Provenance-tracking model of the `aio_buf` field.  Constructor names
record which source binding the raw pointer was taken from: `rdBytes b` /
`wrBytes b` is `buf.rdbuf().as_ptr()` / `buf.wrbuf().as_ptr()` where `buf`
is subsequently moved into the operation; `localIov iov` is
`iov.as_mut_ptr()` (resp. `iov.as_ptr()`) where `iov` is the `Vec` of
iovecs let-bound INSIDE `preadv`/`pwritev` and dropped when the call
returns.  The source offers no constructor for an iovec array stored in
the pool slot, because no field of `Iocb`/`IoOp` holds one. -/
inductive AioBufSrc (Wb Rb : Type) where
  | null
  | rdBytes (b : Rb)
  | wrBytes (b : Wb)
  | localIov (iov : List Iovec)
deriving Repr, DecidableEq

/-- `Struct_iocb` (fields that carry information; the reserved fields and
`key`/`reqprio` are always zero). -/
structure AioIocb (Wb Rb : Type) where
  data : Nat
  opcode : Nat
  fildes : Nat
  buf : AioBufSrc Wb Rb
  count : Nat
  offset : Int
  flags : Nat
  resfd : Nat
deriving Repr, DecidableEq

/-- `enum IoOp` of `src/raw.rs` (the public operation variant). -/
inductive IoOp (T Wb Rb : Type) where
  | Noop
  | Pread (b : Rb) (t : T)
  | Preadv (bs : List Rb) (t : T)
  | Pwrite (b : Wb) (t : T)
  | Pwritev (bs : List Wb) (t : T)
  | Fsync (t : T)
  | Fdsync (t : T)
deriving Repr, DecidableEq

/-- List of iovec arrays structurally owned by an `IoOp` value.  Matching
on every constructor of the source enum: none of them carries an iovec
array, so the result is always empty. -/
def IoOp.ownedIovecs {T Wb Rb : Type} : IoOp T Wb Rb → List (List Iovec)
  | .Noop => []
  | .Pread _ _ => []
  | .Preadv _ _ => []
  | .Pwrite _ _ => []
  | .Pwritev _ _ => []
  | .Fsync _ => []
  | .Fdsync _ => []

/-- `struct Iocb` of `src/raw.rs`: the augmented control block stored in a
pool slot. -/
structure Iocb (T Wb Rb : Type) where
  iocb : AioIocb Wb Rb
  op : IoOp T Wb Rb
deriving Repr, DecidableEq

/-- `struct Iobatch`: the pool of augmented control blocks plus the pending
vector (slot indices in the model, pointers to the embedded `iocb` fields
in the source). -/
structure Iobatch (T Wb Rb : Type) where
  iocb : Pool (Iocb T Wb Rb)
  iocbp : List Nat
deriving Repr, DecidableEq

/-- `struct Iocontext` (the kernel handle is opaque and omitted). -/
structure Iocontext (T Wb Rb : Type) where
  maxops : Nat
  batch : Iobatch T Wb Rb
  evfd : Option Nat
  submitted : Nat
deriving Repr, DecidableEq

/-- Result of a queueing call: `Ok(())` with the new state, `Err(e)` with
the state (untouched by the source's early-return branch) and the returned
payload, or a Rust panic. -/
inductive QRes (σ ε : Type) where
  | ok (st : σ)
  | err (st : σ) (e : ε)
  | panicked
deriving Repr, DecidableEq

/-- Result of `Iocontext::submit`. -/
inductive SubmitRes (σ : Type) where
  | ok (st : σ) (n : Nat)
  | err (st : σ) (errno : Nat)
  | panicked
deriving Repr, DecidableEq

/-- Result of `Iobatch::alloc_iocb`. -/
inductive BatchAlloc (T Wb Rb : Type) where
  | ok (idx : Nat) (b : Iobatch T Wb Rb)
  | full (v : Iocb T Wb Rb)
  | panicked
deriving Repr, DecidableEq

namespace Iobatch

/-- `Iobatch::new(maxops)`. -/
def new (T Wb Rb : Type) (maxops : Nat) : Iobatch T Wb Rb :=
  { iocb := Pool.new _ maxops, iocbp := [] }

/-- `Iobatch::len`. -/
def len {T Wb Rb : Type} (b : Iobatch T Wb Rb) : Nat := b.iocbp.length

/-- `Iobatch::alloc_iocb`: allocate a pool slot and push (the address of)
its embedded control block onto the pending vector. -/
def alloc_iocb {T Wb Rb : Type} (b : Iobatch T Wb Rb) (init : Iocb T Wb Rb) :
    BatchAlloc T Wb Rb :=
  match b.iocb.allocidx init with
  | AllocRes.ok idx p => BatchAlloc.ok idx { iocb := p, iocbp := b.iocbp ++ [idx] }
  | AllocRes.full v => BatchAlloc.full v
  | AllocRes.panicked => BatchAlloc.panicked

/-- `Iobatch::free_iocb` (via `Pool::freeptr`, whose pointer arithmetic
recovers the slot index). -/
def free_iocb {T Wb Rb : Type} (b : Iobatch T Wb Rb) (idx : Nat) :
    Option (Iocb T Wb Rb × Iobatch T Wb Rb) :=
  (b.iocb.freeidx idx).map (fun vp => (vp.1, { b with iocb := vp.2 }))

/-- Write `idx` into the `data` field of the control block held in slot
`idx` (the source's `(*iocb).iocb.data = iocb as u64`). -/
def setSelfData {T Wb Rb : Type} (b : Iobatch T Wb Rb) (idx : Nat) : Iobatch T Wb Rb :=
  { b with iocb :=
      { b.iocb with pool :=
          b.iocb.pool.modify (fun s =>
            match s with
            | Slot.Alloc c => Slot.Alloc { c with iocb := { c.iocb with data := idx } }
            | s => s) idx } }

end Iobatch

namespace Iocontext

/-- `Iocontext::new(maxops)` in the successful case (`io_queue_init ≥ 0`). -/
def new (T Wb Rb : Type) (maxops : Nat) : Iocontext T Wb Rb :=
  { maxops := maxops
    batch := Iobatch.new T Wb Rb maxops
    evfd := none
    submitted := 0 }

/-- `Iocontext::batched`. -/
def batched {T Wb Rb : Type} (st : Iocontext T Wb Rb) : Nat := st.batch.len

/-- `Iocontext::pending`. -/
def pending {T Wb Rb : Type} (st : Iocontext T Wb Rb) : Nat :=
  st.batched + st.submitted

/-- `Iocontext::full`. -/
def full {T Wb Rb : Type} (st : Iocontext T Wb Rb) : Bool :=
  st.pending ≥ st.maxops

/-- `Iocontext::pack_iocb`: common control-block fields; the completion
event-fd fields are set when an event-fd has been obtained. -/
def pack_iocb {T Wb Rb : Type} (st : Iocontext T Wb Rb) (opcode : Nat)
    (fildes : Nat) (off : Int) : AioIocb Wb Rb :=
  { data := 0
    opcode := opcode
    fildes := fildes
    buf := AioBufSrc.null
    count := 0
    offset := off
    flags := match st.evfd with | none => 0 | some _ => IOCB_FLAG_RESFD
    resfd := match st.evfd with | none => 0 | some fd => fd }

/-- `Iocontext::prep_iocb`: allocate the slot (an `Err` from the pool is
`panic!("alloc failed but not full")`), then store the slot's own address
into `data`. -/
def prep_iocb {T Wb Rb : Type} (st : Iocontext T Wb Rb) (iocb : Iocb T Wb Rb) :
    Option (Iocontext T Wb Rb) :=
  match st.batch.alloc_iocb iocb with
  | BatchAlloc.full _ => none
  | BatchAlloc.panicked => none
  | BatchAlloc.ok idx b => some { st with batch := b.setSelfData idx }

/-- Lift `prep_iocb` to the queueing-result type. -/
def prepQ {T Wb Rb ε : Type} (st : Iocontext T Wb Rb) (iocb : Iocb T Wb Rb) :
    QRes (Iocontext T Wb Rb) ε :=
  match st.prep_iocb iocb with
  | none => QRes.panicked
  | some st' => QRes.ok st'

/-- `Iocontext::pread`. -/
def pread {T Wb Rb : Type} [RdBuf Rb] (st : Iocontext T Wb Rb)
    (fildes : Nat) (buf : Rb) (off : Int) (tok : T) :
    QRes (Iocontext T Wb Rb) (Rb × T) :=
  if st.full then QRes.err st (buf, tok)
  else
    let iocb : Iocb T Wb Rb :=
      { iocb := { st.pack_iocb IO_CMD_PREAD fildes off with
                    buf := AioBufSrc.rdBytes buf
                    count := RdBuf.rdbufLen buf }
        op := IoOp.Pread buf tok }
    st.prepQ iocb

/-- `Iocontext::preadv`: the iovec array `iov` is a `Vec` local to this
call; its address goes into `aio_buf` while only `buf` and `tok` are moved
into the operation. -/
def preadv {T Wb Rb : Type} [RdBuf Rb] (st : Iocontext T Wb Rb)
    (fildes : Nat) (buf : List Rb) (off : Int) (tok : T) :
    QRes (Iocontext T Wb Rb) (List Rb × T) :=
  if st.full then QRes.err st (buf, tok)
  else
    let iov : List Iovec :=
      buf.enum.map (fun p => { bufIdx := p.1, len := RdBuf.rdbufLen p.2 })
    let iocb : Iocb T Wb Rb :=
      { iocb := { st.pack_iocb IO_CMD_PREADV fildes off with
                    buf := AioBufSrc.localIov iov
                    count := iov.length }
        op := IoOp.Preadv buf tok }
    st.prepQ iocb

/-- `Iocontext::pwrite`. -/
def pwrite {T Wb Rb : Type} [WrBuf Wb] (st : Iocontext T Wb Rb)
    (fildes : Nat) (buf : Wb) (off : Int) (tok : T) :
    QRes (Iocontext T Wb Rb) (Wb × T) :=
  if st.full then QRes.err st (buf, tok)
  else
    let iocb : Iocb T Wb Rb :=
      { iocb := { st.pack_iocb IO_CMD_PWRITE fildes off with
                    buf := AioBufSrc.wrBytes buf
                    count := WrBuf.wrbufLen buf }
        op := IoOp.Pwrite buf tok }
    st.prepQ iocb

/-- `Iocontext::pwritev`: same local-iovec pattern as `preadv`. -/
def pwritev {T Wb Rb : Type} [WrBuf Wb] (st : Iocontext T Wb Rb)
    (fildes : Nat) (bufv : List Wb) (off : Int) (tok : T) :
    QRes (Iocontext T Wb Rb) (List Wb × T) :=
  if st.full then QRes.err st (bufv, tok)
  else
    let iov : List Iovec :=
      bufv.enum.map (fun p => { bufIdx := p.1, len := WrBuf.wrbufLen p.2 })
    let iocb : Iocb T Wb Rb :=
      { iocb := { st.pack_iocb IO_CMD_PWRITEV fildes off with
                    buf := AioBufSrc.localIov iov
                    count := iov.length }
        op := IoOp.Pwritev bufv tok }
    st.prepQ iocb

/-- `Iocontext::fsync`: offset 0, no buffer. -/
def fsync {T Wb Rb : Type} (st : Iocontext T Wb Rb) (fildes : Nat) (tok : T) :
    QRes (Iocontext T Wb Rb) T :=
  if st.full then QRes.err st tok
  else
    st.prepQ { iocb := st.pack_iocb IO_CMD_FSYNC fildes 0, op := IoOp.Fsync tok }

/-- `Iocontext::fdsync`: offset 0, no buffer. -/
def fdsync {T Wb Rb : Type} (st : Iocontext T Wb Rb) (fildes : Nat) (tok : T) :
    QRes (Iocontext T Wb Rb) T :=
  if st.full then QRes.err st tok
  else
    st.prepQ { iocb := st.pack_iocb IO_CMD_FDSYNC fildes 0, op := IoOp.Fdsync tok }

/-- `Iocontext::submit`, parametrised by the kernel's `io_submit` return
value `r`.  Empty batch: return 0 without calling the kernel.  `r < 0`:
surface `-r`, batch untouched.  `0 ≤ r ≤ n`: pop the first `r` entries,
add `r` to `submitted`, return `r` (the source's removal loop pops
`iocbp.remove(0)` exactly `r` times; `r > n` would panic inside `remove`). -/
def submit {T Wb Rb : Type} (st : Iocontext T Wb Rb) (r : Int) :
    SubmitRes (Iocontext T Wb Rb) :=
  if st.batch.iocbp.length = 0 then SubmitRes.ok st 0
  else if r < 0 then SubmitRes.err st (-r).toNat
  else if r.toNat ≤ st.batch.iocbp.length then
    SubmitRes.ok
      { st with
          batch := { st.batch with iocbp := st.batch.iocbp.drop r.toNat }
          submitted := st.submitted + r.toNat }
      r.toNat
  else SubmitRes.panicked

/-- Per-event result translation in `Iocontext::results`: `res < 0` becomes
`Err(from_raw_os_error(-res))`, otherwise `Ok(res as usize)`. -/
def translateRes (res : Int) : Except Nat Nat :=
  if res < 0 then Except.error (-res).toNat else Except.ok res.toNat

/-- `Iocontext::results`, parametrised by the event records the kernel
returned (`data` echoed back — a slot address, modelled as the index — and
the signed `res`).  For each record in kernel order: free the slot
(`none` models the panic on a dead slot), decrement `submitted`, translate
`res`, and append the `(op, result)` pair. -/
def results {T Wb Rb : Type} (st : Iocontext T Wb Rb) (events : List (Nat × Int)) :
    Option (Iocontext T Wb Rb × List (IoOp T Wb Rb × Except Nat Nat)) :=
  match events with
  | [] => some (st, [])
  | (d, res) :: evs =>
      match st.batch.free_iocb d with
      | none => none
      | some (c, b') =>
          let st' : Iocontext T Wb Rb :=
            { st with batch := b', submitted := st.submitted - 1 }
          (results st' evs).map
            (fun sr => (sr.1, (c.op, translateRes res) :: sr.2))

/-- Operation currently stored in pool slot `i`. -/
def slotOp {T Wb Rb : Type} (st : Iocontext T Wb Rb) (i : Nat) :
    Option (IoOp T Wb Rb) :=
  match st.batch.iocb.pool.get? i with
  | some (Slot.Alloc c) => some c.op
  | _ => none

/-- Control block currently stored in pool slot `i`. -/
def slotIocb {T Wb Rb : Type} (st : Iocontext T Wb Rb) (i : Nat) :
    Option (AioIocb Wb Rb) :=
  match st.batch.iocb.pool.get? i with
  | some (Slot.Alloc c) => some c.iocb
  | _ => none

end Iocontext

end Libaio

namespace Spec2Proof
open Libaio

/-- Trace for the pool free-list defect: capacity 2, allocate twice,
free both slots, then try to allocate twice again. -/
def c2Pool0 : Pool Nat := Pool.new Nat 2

/-- State after `allocidx(10)` on the fresh pool (slot 1 allocated). -/
def c2Pool1 : Pool Nat :=
  { pool := [Slot.Free (-1), Slot.Alloc 10], freelist := 0, used := 1 }

/-- State after `allocidx(20)` (slot 0 allocated; pool full). -/
def c2Pool2 : Pool Nat :=
  { pool := [Slot.Alloc 20, Slot.Alloc 10], freelist := -1, used := 2 }

/-- State after `freeidx(1)`: slot 1 now carries `Free(1)` — a self link. -/
def c2Pool3 : Pool Nat :=
  { pool := [Slot.Alloc 20, Slot.Free 1], freelist := 1, used := 1 }

/-- State after `freeidx(0)`: both slots free, but each links to itself. -/
def c2Pool4 : Pool Nat :=
  { pool := [Slot.Free 0, Slot.Free 1], freelist := 0, used := 0 }

/-- State after re-allocating once (`allocidx(30)` takes slot 0): the
freelist head still points at slot 0, which is now allocated. -/
def c2Pool5 : Pool Nat :=
  { pool := [Slot.Alloc 30, Slot.Free 1], freelist := 0, used := 1 }

/-- Read buffer used in the context traces: a `Vec<u8>` of capacity 4. -/
def c3Buf : VecU8 := { len := 0, cap := 4 }

/-- Augmented control block produced by `pread(fd 3, c3Buf, off 0, tok)`
once its self-address `d` has been stored in `data`. -/
def c3Iocb (d tok : Nat) : Iocb Nat VecU8 VecU8 :=
  { iocb := { data := d, opcode := IO_CMD_PREAD, fildes := 3
              buf := AioBufSrc.rdBytes c3Buf, count := 4, offset := 0
              flags := 0, resfd := 0 }
    op := IoOp.Pread c3Buf tok }

/-- Fresh context with `maxops = 2`. -/
def c3St0 : Iocontext Nat VecU8 VecU8 := Iocontext.new Nat VecU8 VecU8 2

/-- After queueing one `pread` (slot 1). -/
def c3St1 : Iocontext Nat VecU8 VecU8 :=
  { maxops := 2
    batch := { iocb := { pool := [Slot.Free (-1), Slot.Alloc (c3Iocb 1 1)]
                         freelist := 0, used := 1 }
               iocbp := [1] }
    evfd := none, submitted := 0 }

/-- After queueing a second `pread` (slot 0); the context is now full. -/
def c3St2 : Iocontext Nat VecU8 VecU8 :=
  { maxops := 2
    batch := { iocb := { pool := [Slot.Alloc (c3Iocb 0 2), Slot.Alloc (c3Iocb 1 1)]
                         freelist := -1, used := 2 }
               iocbp := [1, 0] }
    evfd := none, submitted := 0 }

/-- After `submit` with the kernel accepting both entries. -/
def c3St3 : Iocontext Nat VecU8 VecU8 :=
  { maxops := 2
    batch := { iocb := { pool := [Slot.Alloc (c3Iocb 0 2), Slot.Alloc (c3Iocb 1 1)]
                         freelist := -1, used := 2 }
               iocbp := [] }
    evfd := none, submitted := 2 }

/-- After harvesting both completions: both slots free, each linking to
itself. -/
def c3St4 : Iocontext Nat VecU8 VecU8 :=
  { maxops := 2
    batch := { iocb := { pool := [Slot.Free 0, Slot.Free 1]
                         freelist := 0, used := 0 }
               iocbp := [] }
    evfd := none, submitted := 0 }

/-- After queueing one more `pread` (slot 0 reused): one of two slots used,
but the freelist head still points at the now-allocated slot 0. -/
def c3St5 : Iocontext Nat VecU8 VecU8 :=
  { maxops := 2
    batch := { iocb := { pool := [Slot.Alloc (c3Iocb 0 3), Slot.Free 1]
                         freelist := 0, used := 1 }
               iocbp := [0] }
    evfd := none, submitted := 0 }

/-- Fresh context with `maxops = 1` for the vector-op traces. -/
def c1St0 : Iocontext Nat VecU8 VecU8 := Iocontext.new Nat VecU8 VecU8 1

/-- Read buffer for the `preadv` trace: capacity 8. -/
def c1Rb : VecU8 := { len := 0, cap := 8 }

/-- Write buffer for the `pwritev` trace: 5 valid bytes. -/
def c1Wb : VecU8 := { len := 5, cap := 8 }

/-- State after `preadv(fd 3, vec![c1Rb], off 0, tok 42)`: the stored
operation owns only the buffer vector and token, while `aio_buf` points at
the call-local iovec vector. -/
def c1St1 : Iocontext Nat VecU8 VecU8 :=
  { maxops := 1
    batch := { iocb := { pool := [Slot.Alloc
                  { iocb := { data := 0, opcode := IO_CMD_PREADV, fildes := 3
                              buf := AioBufSrc.localIov [{ bufIdx := 0, len := 8 }]
                              count := 1, offset := 0, flags := 0, resfd := 0 }
                    op := IoOp.Preadv [c1Rb] 42 }]
                         freelist := -1, used := 1 }
               iocbp := [0] }
    evfd := none, submitted := 0 }

/-- State after `pwritev(fd 3, vec![c1Wb], off 0, tok 7)` on a fresh
`maxops = 1` context. -/
def c1Wt1 : Iocontext Nat VecU8 VecU8 :=
  { maxops := 1
    batch := { iocb := { pool := [Slot.Alloc
                  { iocb := { data := 0, opcode := IO_CMD_PWRITEV, fildes := 3
                              buf := AioBufSrc.localIov [{ bufIdx := 0, len := 5 }]
                              count := 1, offset := 0, flags := 0, resfd := 0 }
                    op := IoOp.Pwritev [c1Wb] 7 }]
                         freelist := -1, used := 1 }
               iocbp := [0] }
    evfd := none, submitted := 0 }

/-- Reachable full context for the queue-error witness: `maxops = 1` with
one operation batched. -/
def c4Full : Iocontext Nat VecU8 VecU8 :=
  { maxops := 1
    batch := { iocb := { pool := [Slot.Alloc (c3Iocb 0 9)]
                         freelist := -1, used := 1 }
               iocbp := [0] }
    evfd := none, submitted := 0 }

/-- Context with two batched entries for the submit witness. -/
def c5St : Iocontext Nat VecU8 VecU8 :=
  { maxops := 3
    batch := { iocb := { pool := [Slot.Alloc (c3Iocb 0 4), Slot.Alloc (c3Iocb 1 5), Slot.Free (-1)]
                         freelist := 2, used := 2 }
               iocbp := [0, 1] }
    evfd := none, submitted := 0 }

/-- `c5St` after the kernel accepted 1 of its 2 batched entries. -/
def c5StAfter : Iocontext Nat VecU8 VecU8 :=
  { maxops := 3
    batch := { iocb := { pool := [Slot.Alloc (c3Iocb 0 4), Slot.Alloc (c3Iocb 1 5), Slot.Free (-1)]
                         freelist := 2, used := 2 }
               iocbp := [1] }
    evfd := none, submitted := 1 }

/-- Context with two submitted operations for the results witness. -/
def c6St : Iocontext Nat VecU8 VecU8 :=
  { maxops := 2
    batch := { iocb := { pool := [Slot.Alloc (c3Iocb 0 2), Slot.Alloc (c3Iocb 1 1)]
                         freelist := -1, used := 2 }
               iocbp := [] }
    evfd := none, submitted := 2 }

/-- Claim C2: the claim fails on the code.  `Pool::freeidx` assigns
`self.freelist = idx` before writing `Slot::Free(self.freelist)`, so every
freed slot links to itself.  On a capacity-2 pool: allocate twice, free both
slots (indices 1 then 0), and re-allocate — the first re-allocation succeeds
but the second panics with `"idx 0 not free"` even though only 1 of 2 slots
is used.  Already after the first free the free list is the self cycle
`1 → 1`, so it is not acyclic, does not reach the remaining free slot, and
`used + free-list length = capacity` fails at `c2Pool4` (0 + ∞/cycle ≠ 2). -/
theorem pool_free_then_realloc_panics :
    Pool.allocidx c2Pool0 10 = AllocRes.ok 1 c2Pool1 ∧
    Pool.allocidx c2Pool1 20 = AllocRes.ok 0 c2Pool2 ∧
    Pool.freeidx c2Pool2 1 = some (10, c2Pool3) ∧
    c2Pool3.pool.get? 1 = some (Slot.Free 1) ∧
    Pool.freeChain c2Pool3 = none ∧
    Pool.freeidx c2Pool3 0 = some (20, c2Pool4) ∧
    Pool.freeChain c2Pool4 = none ∧
    Pool.allocidx c2Pool4 30 = AllocRes.ok 0 c2Pool5 ∧
    c2Pool5.used = 1 ∧ Pool.limit c2Pool5 = 2 ∧
    Pool.allocidx c2Pool5 40 = AllocRes.panicked := by
  decide

/-- Claim C3: the claim fails on the code.  Reachable trace on a `maxops = 2`
context: queue two `pread`s, submit both (kernel accepts 2), harvest both
completions, queue one `pread` — then the next `pread`, issued while
`batched + submitted = 1 < 2 = maxops` (`full` is false), panics inside
`prep_iocb` (`"alloc failed but not full"` is unreachable; the panic is
`allocidx`'s `"idx 0 not free"`), because harvesting freed two slots and
`Pool::freeidx`'s self-linking free list was corrupted. -/
theorem context_not_full_pread_panics :
    c3St0.pread 3 c3Buf 0 1 = QRes.ok c3St1 ∧
    c3St1.pread 3 c3Buf 0 2 = QRes.ok c3St2 ∧
    c3St2.submit 2 = SubmitRes.ok c3St3 2 ∧
    c3St3.results [(1, 4), (0, 4)] =
      some (c3St4, [(IoOp.Pread c3Buf 1, Except.ok 4),
                    (IoOp.Pread c3Buf 2, Except.ok 4)]) ∧
    c3St4.pread 3 c3Buf 0 3 = QRes.ok c3St5 ∧
    c3St5.pending = 1 ∧ c3St5.maxops = 2 ∧ c3St5.full = false ∧
    c3St5.pread 3 c3Buf 0 4 = QRes.panicked := by
  exact ⟨rfl, rfl, rfl, rfl, rfl, rfl, rfl, rfl, rfl⟩

/-- Claim C1: the claim fails on the code.  After a successful `preadv` (and
likewise `pwritev`) the control block's `buf` field carries the address of
the iovec vector that was let-bound inside the queueing call
(`AioBufSrc.localIov`), while the `Operation` stored in the pool slot is
`Preadv(buf, tok)` — no constructor of `IoOp` owns an iovec array
(`ownedIovecs` is empty for every operation), so the iovec storage is local
to the queueing call and is freed when it returns, not when the slot is
freed at harvest. -/
theorem preadv_pwritev_iovec_is_call_local :
    c1St0.preadv 3 [c1Rb] 0 42 = QRes.ok c1St1 ∧
    c1St1.slotIocb 0 = some
      { data := 0, opcode := IO_CMD_PREADV, fildes := 3
        buf := AioBufSrc.localIov [{ bufIdx := 0, len := 8 }]
        count := 1, offset := 0, flags := 0, resfd := 0 } ∧
    c1St1.slotOp 0 = some (IoOp.Preadv [c1Rb] 42) ∧
    c1St0.pwritev 3 [c1Wb] 0 7 = QRes.ok c1Wt1 ∧
    c1Wt1.slotIocb 0 = some
      { data := 0, opcode := IO_CMD_PWRITEV, fildes := 3
        buf := AioBufSrc.localIov [{ bufIdx := 0, len := 5 }]
        count := 1, offset := 0, flags := 0, resfd := 0 } ∧
    c1Wt1.slotOp 0 = some (IoOp.Pwritev [c1Wb] 7) ∧
    (∀ op : IoOp Nat VecU8 VecU8, op.ownedIovecs = []) := by
  refine ⟨by decide, by decide, by decide, by decide, by decide, by decide, ?_⟩
  intro op
  cases op <;> rfl

/-- Claim C7: the claim fails on the code.  `extend_uninit` and `shrink` round
with the mask `(size + align - 1) & (align - 1)` — the complement `!` used
by `alloc_uninit` is missing — so on a capacity-32, alignment-16 buffer,
`shrink(16)` succeeds and sets the capacity to `31 & 15 = 15`, which is
neither 16 (the claimed rounding) nor a multiple of the alignment; and on a
capacity-16 buffer `extend(32)` trips `assert!(sz >= self.len)` (`47 & 15 =
15 < 16`) instead of growing to 32. -/
theorem aligned_extend_shrink_mask_defect :
    AlignedBuf.alloc 32 16 = some { len := 32, align := 16, valid := 32 } ∧
    AlignedBuf.shrink { len := 32, align := 16, valid := 32 } 16 =
      some { len := 15, align := 16, valid := 15 } ∧
    ¬ (16 ∣ 15) ∧ (15 : Nat) ≠ 16 ∧
    AlignedBuf.alloc 16 16 = some { len := 16, align := 16, valid := 16 } ∧
    AlignedBuf.extend { len := 16, align := 16, valid := 16 } 32 = none := by
  refine ⟨by decide, by decide, by decide, by decide, by decide, by decide⟩

/-- Claim C10: for `Vec<u8>`, `rdbuf` returns a slice over the whole capacity
(not the current length), and `rdupdate(base, len)` unconditionally sets
the length to `base + len` — also when that shrinks the valid region
(`⟨10,16⟩` updated at `[2,5)` becomes length 5) or when `base` lies beyond
it (`⟨2,16⟩` updated at `[12,14)` becomes length 14) — while `AlignedBuf`'s
`rdupdate` leaves its valid prefix unchanged in both of those cases. -/
theorem vec_rdbuf_capacity_rdupdate_unconditional :
    (∀ v : VecU8, VecU8.rdbufLen v = v.cap) ∧
    (∀ v base l, VecU8.rdupdate v base l = { len := base + l, cap := v.cap }) ∧
    VecU8.rdupdate { len := 10, cap := 16 } 2 3 = { len := 5, cap := 16 } ∧
    AlignedBuf.rdupdate { len := 16, align := 16, valid := 10 } 2 3 =
      some { len := 16, align := 16, valid := 10 } ∧
    VecU8.rdupdate { len := 2, cap := 16 } 12 2 = { len := 14, cap := 16 } ∧
    AlignedBuf.rdupdate { len := 16, align := 16, valid := 2 } 12 2 =
      some { len := 16, align := 16, valid := 2 } := by
  exact ⟨fun v => rfl, fun v base l => rfl, by decide, by decide, by decide, by decide⟩

/-- Helper: `prep_iocb` (lifted to the queueing-result type) never produces
`Err`: its outcomes are `Ok` or a panic. -/
theorem prepQ_ne_err {T Wb Rb ε : Type} (st : Iocontext T Wb Rb)
    (iocb : Iocb T Wb Rb) (st' : Iocontext T Wb Rb) (e : ε) :
    st.prepQ iocb ≠ QRes.err st' e := by
  unfold Iocontext.prepQ
  cases st.prep_iocb iocb <;> simp

/-- Helper: the common shape of all six queueing methods — an early `Err`
return of the untouched state and the caller's payload when full, otherwise
`prep_iocb` — yields `Err` exactly when the context is full, and then with
exactly that state and payload. -/
theorem queue_shape_err_iff {T Wb Rb ε : Type} (st : Iocontext T Wb Rb)
    (p : ε) (iocb : Iocb T Wb Rb) (st' : Iocontext T Wb Rb) (e : ε) :
    (if st.full then QRes.err st p else st.prepQ iocb) = QRes.err st' e ↔
      st.full = true ∧ st' = st ∧ e = p := by
  by_cases h : st.full
  · simp [h, eq_comm]
  · simp [h, prepQ_ne_err]

/-- Claim C4: a queueing call (`pread`, `preadv`, `pwrite`, `pwritev`, `fsync`,
`fdsync`) returns `Err` exactly when `batched + submitted ≥ maxops` at the
time of the call, and the `Err` then carries the context state untouched
and the caller's buffers and token unchanged. -/
theorem queue_err_iff_full {T Wb Rb : Type} [RdBuf Rb] [WrBuf Wb]
    (st : Iocontext T Wb Rb) (fd : Nat) (off : Int)
    (rb : Rb) (rbs : List Rb) (wb : Wb) (wbs : List Wb) (tok : T) :
    (∀ st' e, st.pread fd rb off tok = QRes.err st' e ↔
        st.full = true ∧ st' = st ∧ e = (rb, tok)) ∧
    (∀ st' e, st.preadv fd rbs off tok = QRes.err st' e ↔
        st.full = true ∧ st' = st ∧ e = (rbs, tok)) ∧
    (∀ st' e, st.pwrite fd wb off tok = QRes.err st' e ↔
        st.full = true ∧ st' = st ∧ e = (wb, tok)) ∧
    (∀ st' e, st.pwritev fd wbs off tok = QRes.err st' e ↔
        st.full = true ∧ st' = st ∧ e = (wbs, tok)) ∧
    (∀ st' e, st.fsync fd tok = QRes.err st' e ↔
        st.full = true ∧ st' = st ∧ e = tok) ∧
    (∀ st' e, st.fdsync fd tok = QRes.err st' e ↔
        st.full = true ∧ st' = st ∧ e = tok) := by
  refine ⟨fun st' e => ?_, fun st' e => ?_, fun st' e => ?_,
          fun st' e => ?_, fun st' e => ?_, fun st' e => ?_⟩ <;>
    simp only [Iocontext.pread, Iocontext.preadv, Iocontext.pwrite,
      Iocontext.pwritev, Iocontext.fsync, Iocontext.fdsync] <;>
    exact queue_shape_err_iff st _ _ st' e

/-- Witness for `queue_err_iff_full` at a reachable full context
(`maxops = 1`, one operation batched). -/
theorem queue_err_iff_full_witness :
    c4Full.pread 3 c3Buf 0 1 = QRes.err c4Full (c3Buf, 1) ∧
    c4Full.fsync 3 1 = QRes.err c4Full 1 := by
  have h := queue_err_iff_full c4Full 3 0 c3Buf [] c3Buf [] 1
  exact ⟨(h.1 c4Full (c3Buf, 1)).mpr ⟨by decide, rfl, rfl⟩,
         (h.2.2.2.2.1 c4Full 1).mpr ⟨by decide, rfl, rfl⟩⟩

/-- Claim C5: `submit` with an empty pending vector returns 0 and leaves the
state untouched; when the kernel accepts `r` of the `n` batched entries
(`0 ≤ r ≤ n`) exactly the first `r` are removed from the front, `submitted`
grows by `r`, and `r` is returned; when the kernel reports a negative value
the negated error number is surfaced and nothing changes. -/
theorem submit_semantics {T Wb Rb : Type} (st : Iocontext T Wb Rb) (r : Int) :
    (st.batch.iocbp = [] → st.submit r = SubmitRes.ok st 0) ∧
    (0 ≤ r → r.toNat ≤ st.batched →
      st.submit r = SubmitRes.ok
        { st with
            batch := { st.batch with iocbp := st.batch.iocbp.drop r.toNat }
            submitted := st.submitted + r.toNat } r.toNat) ∧
    (r < 0 → st.batch.iocbp ≠ [] → st.submit r = SubmitRes.err st (-r).toNat) := by
  obtain ⟨m, ⟨pool, iocbp⟩, ev, sub⟩ := st
  refine ⟨fun h => ?_, fun h0 hn => ?_, fun hneg hne => ?_⟩
  · subst h; rfl
  · simp only [Iocontext.batched, Iobatch.len] at hn
    by_cases he : iocbp.length = 0
    · have hr0 : r.toNat = 0 := by omega
      have he' : iocbp = [] := List.length_eq_zero.mp he
      subst he'
      simp [Iocontext.submit, hr0]
    · unfold Iocontext.submit
      simp only [he, if_false, if_neg (by omega : ¬ r < 0), if_pos hn]
  · unfold Iocontext.submit
    simp only [List.length_eq_zero, if_neg hne, if_pos hneg]

/-- Witness for `submit_semantics`: a two-entry batch with the kernel
accepting one, a kernel error, and the empty batch. -/
theorem submit_semantics_witness :
    c5St.submit 1 = SubmitRes.ok c5StAfter 1 ∧
    c5St.submit (-9) = SubmitRes.err c5St 9 ∧
    c3St0.submit 5 = SubmitRes.ok c3St0 0 := by
  refine ⟨?_, ?_, ?_⟩
  · exact (submit_semantics c5St 1).2.1 (by decide) (by decide)
  · exact (submit_semantics c5St (-9)).2.2 (by decide) (by decide)
  · exact (submit_semantics c3St0 5).1 rfl

/-- Claim C8: `AlignedBuf::rdupdate(base, len)` (with the updated range inside
the capacity) advances the valid prefix to `base + len` exactly when the
range `[base, base+len)` meets or exceeds the prior boundary — it starts at
or before `valid` and ends at or past it — and leaves the buffer unchanged
otherwise; capacity and alignment are never modified. -/
theorem rdupdate_advances_valid_iff (b : AlignedBuf) (base l : Nat)
    (hv : b.valid ≤ b.len) (hcap : base + l ≤ b.len) :
    ∃ b', AlignedBuf.rdupdate b base l = some b' ∧
      (b'.valid = base + l ↔ base ≤ b.valid ∧ b.valid ≤ base + l) ∧
      (¬ (base ≤ b.valid ∧ b.valid < base + l) → b' = b) ∧
      b'.len = b.len ∧ b'.align = b.align := by
  unfold AlignedBuf.rdupdate
  rw [if_pos hv]
  by_cases hc : base ≤ b.valid ∧ base + l > b.valid
  · rw [if_pos hc, if_pos hcap]
    exact ⟨_, rfl, by constructor <;> intro <;> first | rfl | omega,
           fun hnc => absurd hc hnc, rfl, rfl⟩
  · rw [if_neg hc]
    exact ⟨b, rfl, by constructor <;> intro h <;> omega, fun _ => rfl, rfl, rfl⟩

/-- Witness for `rdupdate_advances_valid_iff`: a read filling `[0, 8)` on a
buffer whose valid prefix was 4 advances the prefix to 8. -/
theorem rdupdate_advances_valid_iff_witness :
    ∃ b', AlignedBuf.rdupdate { len := 16, align := 16, valid := 4 } 0 8 = some b' ∧
      b'.valid = 8 := by
  obtain ⟨b', hb, hiff, -, -, -⟩ :=
    rdupdate_advances_valid_iff { len := 16, align := 16, valid := 4 } 0 8
      (by decide) (by decide)
  exact ⟨b', hb, hiff.mpr ⟨by decide, by decide⟩⟩

/-- Helper: masking a 64-bit value with the complement of `2^k - 1` clears
the low `k` bits, i.e. rounds down to a multiple of `2^k`. -/
theorem land_not64_mask {x k : Nat} (hk : k ≤ 64) (hx : x < U64) :
    Nat.land x (not64 (2 ^ k - 1)) = 2 ^ k * (x / 2 ^ k) := by
  have h1 : (2 : Nat) ^ (64 - k) * 2 ^ k = 2 ^ 64 := by
    rw [← pow_add]; congr 1; omega
  have h2 : (1 : Nat) ≤ 2 ^ k := Nat.one_le_two_pow
  have h3 : (1 : Nat) ≤ 2 ^ (64 - k) := Nat.one_le_two_pow
  have hmask : not64 (2 ^ k - 1) = (2 ^ (64 - k) - 1) <<< k := by
    rw [Nat.shiftLeft_eq, Nat.sub_mul, one_mul]
    unfold not64 U64
    omega
  have hright : 2 ^ k * (x / 2 ^ k) = (x >>> k) <<< k := by
    rw [Nat.shiftRight_eq_div_pow, Nat.shiftLeft_eq, Nat.mul_comm]
  rw [hmask, hright]
  refine Nat.eq_of_testBit_eq fun i => ?_
  show (x &&& ((2 ^ (64 - k) - 1) <<< k)).testBit i = ((x >>> k) <<< k).testBit i
  simp only [Nat.testBit_land, Nat.testBit_shiftLeft, Nat.testBit_shiftRight,
    Nat.testBit_two_pow_sub_one]
  by_cases h64 : i < 64
  · by_cases hki : k ≤ i
    · have hik : k + (i - k) = i := by omega
      simp [hki, hik, show i - k < 64 - k by omega]
    · simp [hki]
  · have hxb : x.testBit i = false :=
      Nat.testBit_eq_false_of_lt
        (lt_of_lt_of_le hx (Nat.pow_le_pow_right (by norm_num) (by omega)))
    by_cases hki : k ≤ i
    · have hik : k + (i - k) = i := by omega
      simp [hki, hik, hxb, show ¬ (i - k < 64 - k) by omega]
    · simp [hki]

/-- Claim C9: for `align = 2^k` (a positive power of two) and any size whose
round-up does not overflow 64 bits, `alloc_uninit(size, align)` succeeds
and yields capacity `align * ((size + align - 1) / align)` — `size` rounded
up to the next multiple of the alignment: a multiple of `align`, at least
`size`, and less than `size + align`. -/
theorem alloc_uninit_rounds_up (size k : Nat) (hk : k ≤ 64)
    (hsz : size + 2 ^ k - 1 < U64) :
    AlignedBuf.alloc_uninit size (2 ^ k) =
      some { len := 2 ^ k * ((size + 2 ^ k - 1) / 2 ^ k), align := 2 ^ k, valid := 0 } ∧
    2 ^ k ∣ 2 ^ k * ((size + 2 ^ k - 1) / 2 ^ k) ∧
    size ≤ 2 ^ k * ((size + 2 ^ k - 1) / 2 ^ k) ∧
    2 ^ k * ((size + 2 ^ k - 1) / 2 ^ k) < size + 2 ^ k := by
  have h2 : (1 : Nat) ≤ 2 ^ k := Nat.one_le_two_pow
  have hdm := Nat.div_add_mod (size + 2 ^ k - 1) (2 ^ k)
  have hmlt : (size + 2 ^ k - 1) % 2 ^ k < 2 ^ k := Nat.mod_lt _ (by omega)
  have hcap : size ≤ 2 ^ k * ((size + 2 ^ k - 1) / 2 ^ k) ∧
      2 ^ k * ((size + 2 ^ k - 1) / 2 ^ k) < size + 2 ^ k := by omega
  have hpow : ispower2 (2 ^ k) = true := by
    have : (2 ^ k) &&& (2 ^ k - 1) = 0 := by
      refine Nat.eq_of_testBit_eq fun i => ?_
      simp only [Nat.testBit_land, Nat.testBit_two_pow,
        Nat.testBit_two_pow_sub_one, Nat.zero_testBit]
      by_cases h : k = i <;> simp [h]
    simp [ispower2, this]
  refine ⟨?_, Dvd.intro _ rfl, hcap.1, hcap.2⟩
  unfold AlignedBuf.alloc_uninit
  rw [if_pos ⟨by omega, hpow⟩]
  have hmod : (size + 2 ^ k - 1) % U64 = size + 2 ^ k - 1 := Nat.mod_eq_of_lt hsz
  have hland := land_not64_mask (x := size + 2 ^ k - 1) hk hsz
  simp only [hmod, hland]
  rw [if_pos ⟨hcap.1, Nat.mul_mod_right _ _⟩]

/-- Witness for `alloc_uninit_rounds_up`: the three concrete allocations of
the spec — size 10 → capacity 16, size 17 → capacity 32, size 16 →
capacity 16 (alignment 16). -/
theorem alloc_uninit_rounds_up_witness :
    AlignedBuf.alloc_uninit 10 16 = some { len := 16, align := 16, valid := 0 } ∧
    AlignedBuf.alloc_uninit 17 16 = some { len := 32, align := 16, valid := 0 } ∧
    AlignedBuf.alloc_uninit 16 16 = some { len := 16, align := 16, valid := 0 } := by
  have h10 := (alloc_uninit_rounds_up 10 4 (by norm_num) (by norm_num [U64])).1
  have h17 := (alloc_uninit_rounds_up 17 4 (by norm_num) (by norm_num [U64])).1
  have h16 := (alloc_uninit_rounds_up 16 4 (by norm_num) (by norm_num [U64])).1
  norm_num at h10 h17 h16
  exact ⟨h10, h17, h16⟩

/-- Helper: membership-aware monotonicity of `List.Forall₂`. -/
theorem forall₂_imp_of_mem {α β : Type} {R S : α → β → Prop} :
    ∀ {l₁ : List α} {l₂ : List β}, List.Forall₂ R l₁ l₂ →
      (∀ a ∈ l₁, ∀ b, R a b → S a b) → List.Forall₂ S l₁ l₂ := by
  intro l₁ l₂ h
  induction h with
  | nil => exact fun _ => List.Forall₂.nil
  | cons hr _ ih =>
      intro hmem
      exact List.Forall₂.cons
        (hmem _ (List.mem_cons_self _ _) _ hr)
        (ih fun a ha b hb => hmem a (List.mem_cons_of_mem _ ha) b hb)

/-- Helper: `free_iocb` on a slot currently holding `c` frees exactly that
slot (leaving the self link the source writes) and returns `c`. -/
theorem free_iocb_of_get? {T Wb Rb : Type} {b : Iobatch T Wb Rb} {d : Nat}
    {c : Iocb T Wb Rb} (hc : b.iocb.pool.get? d = some (Slot.Alloc c)) :
    b.free_iocb d =
      some (c, { iocb := { pool := b.iocb.pool.set d (Slot.Free (d : Int))
                           freelist := (d : Int), used := b.iocb.used - 1 }
                 iocbp := b.iocbp }) := by
  obtain ⟨hlt, -⟩ := List.get?_eq_some.mp hc
  unfold Iobatch.free_iocb Pool.freeidx
  rw [if_pos hlt, hc]
  rfl

/-- Claim C6: when the kernel returns event records for distinct live slots,
`results` succeeds; the returned pairs line up with the records in kernel
order, each carrying the operation originally stored in that record's slot
and `res` translated to `Ok(res)` or `Err(-res)`; `submitted` drops by one
per record; `maxops`, the pending vector and the event-fd are untouched;
each record's slot ends up free, and every other slot is untouched. -/
theorem results_semantics {T Wb Rb : Type} (st : Iocontext T Wb Rb)
    (events : List (Nat × Int))
    (hnodup : (events.map Prod.fst).Nodup)
    (halloc : ∀ p ∈ events, ∃ c, st.batch.iocb.pool.get? p.1 = some (Slot.Alloc c)) :
    ∃ stf pairs, st.results events = some (stf, pairs) ∧
      List.Forall₂ (fun (p : Nat × Int) (q : IoOp T Wb Rb × Except Nat Nat) =>
          st.slotOp p.1 = some q.1 ∧ q.2 = Iocontext.translateRes p.2) events pairs ∧
      stf.submitted = st.submitted - events.length ∧
      (events.length ≤ st.submitted → stf.submitted + events.length = st.submitted) ∧
      stf.maxops = st.maxops ∧
      stf.batch.iocbp = st.batch.iocbp ∧
      stf.evfd = st.evfd ∧
      (∀ p ∈ events, stf.batch.iocb.pool.get? p.1 = some (Slot.Free (p.1 : Int))) ∧
      (∀ j, j ∉ events.map Prod.fst →
          stf.batch.iocb.pool.get? j = st.batch.iocb.pool.get? j) := by
  induction events generalizing st with
  | nil =>
      exact ⟨st, [], rfl, List.Forall₂.nil, rfl, fun _ => rfl, rfl, rfl, rfl,
             fun p hp => absurd hp (List.not_mem_nil p), fun _ _ => rfl⟩
  | cons hd tl ih =>
      obtain ⟨d, res⟩ := hd
      obtain ⟨c, hc⟩ := halloc (d, res) (List.mem_cons_self _ _)
      have hnodup' : ((d : Nat) :: tl.map Prod.fst).Nodup := hnodup
      obtain ⟨hdtl, hndtl⟩ := List.nodup_cons.mp hnodup'
      have hfree := free_iocb_of_get? (b := st.batch) hc
      set b' : Iobatch T Wb Rb :=
        { iocb := { pool := st.batch.iocb.pool.set d (Slot.Free (d : Int))
                    freelist := (d : Int), used := st.batch.iocb.used - 1 }
          iocbp := st.batch.iocbp } with hb'
      set st' : Iocontext T Wb Rb :=
        { st with batch := b', submitted := st.submitted - 1 } with hst'
      have hset_ne : ∀ j, j ≠ d →
          st'.batch.iocb.pool.get? j = st.batch.iocb.pool.get? j := by
        intro j hj
        show (st.batch.iocb.pool.set d (Slot.Free (d : Int))).get? j = _
        rw [List.get?_eq_getElem?, List.get?_eq_getElem?,
            List.getElem?_set_ne (Ne.symm hj)]
      have halloc' : ∀ p ∈ tl, ∃ c', st'.batch.iocb.pool.get? p.1 = some (Slot.Alloc c') := by
        intro p hp
        obtain ⟨c', hc'⟩ := halloc p (List.mem_cons_of_mem _ hp)
        have hne : p.1 ≠ d := fun hEq => hdtl (hEq ▸ List.mem_map_of_mem Prod.fst hp)
        exact ⟨c', (hset_ne p.1 hne).trans hc'⟩
      obtain ⟨stf, pairs, hres, hfa, hsub, hsub2, hmax, hbp, hev, hfreed, hout⟩ :=
        ih st' hndtl halloc'
      have hslot : ∀ p ∈ tl, st'.slotOp p.1 = st.slotOp p.1 := by
        intro p hp
        have hne : p.1 ≠ d := fun hEq => hdtl (hEq ▸ List.mem_map_of_mem Prod.fst hp)
        unfold Iocontext.slotOp
        rw [hset_ne p.1 hne]
      refine ⟨stf, (c.op, Iocontext.translateRes res) :: pairs, ?_, ?_, ?_, ?_, ?_, ?_, ?_, ?_, ?_⟩
      · show (match st.batch.free_iocb d with
              | none => none
              | some (c, b') =>
                  (Iocontext.results { st with batch := b', submitted := st.submitted - 1 } tl).map
                    (fun sr => (sr.1, (c.op, Iocontext.translateRes res) :: sr.2))) =
            some (stf, (c.op, Iocontext.translateRes res) :: pairs)
        rw [hfree]
        simp only [← hb', ← hst', hres, Option.map_some']
      · refine List.Forall₂.cons ⟨?_, rfl⟩ ?_
        · unfold Iocontext.slotOp
          rw [hc]
        · refine forall₂_imp_of_mem hfa ?_
          intro p hp q hq
          exact ⟨(hslot p hp).symm.trans hq.1, hq.2⟩
      · have : st'.submitted = st.submitted - 1 := rfl
        simp only [List.length_cons]
        omega
      · have : st'.submitted = st.submitted - 1 := rfl
        simp only [List.length_cons]
        omega
      · exact hmax
      · exact hbp
      · exact hev
      · intro p hp
        rcases List.mem_cons.mp hp with hpe | hpm
        · subst hpe
          rw [hout d hdtl]
          obtain ⟨hlt, -⟩ := List.get?_eq_some.mp hc
          show (st.batch.iocb.pool.set d (Slot.Free (d : Int))).get? d = _
          rw [List.get?_eq_getElem?, List.getElem?_set_self (by simpa using hlt)]
        · exact hfreed p hpm
      · intro j hj
        have hj' : j ∉ tl.map Prod.fst ∧ j ≠ d := by
          constructor
          · exact fun h => hj (by simp [h])
          · exact fun h => hj (by simp [h])
        rw [hout j hj'.1]
        exact hset_ne j hj'.2

/-- Witness for `results_semantics`: a context with two submitted
operations harvesting two events (one success, one error). -/
theorem results_semantics_witness :
    ∃ stf pairs, c6St.results [(1, 4), (0, -5)] = some (stf, pairs) ∧
      stf.submitted = 0 ∧ stf.maxops = 2 ∧
      stf.batch.iocb.pool.get? 1 = some (Slot.Free 1) := by
  obtain ⟨stf, pairs, hres, -, hsub, -, hmax, -, -, hfreed, -⟩ :=
    results_semantics c6St [(1, 4), (0, -5)] (by decide)
      (fun p hp => by
        rcases List.mem_cons.mp hp with h | hp2
        · exact ⟨c3Iocb 1 1, by rw [h]; rfl⟩
        · rcases List.mem_cons.mp hp2 with h | hp3
          · exact ⟨c3Iocb 0 2, by rw [h]; rfl⟩
          · exact absurd hp3 (List.not_mem_nil p))
  exact ⟨stf, pairs, hres, hsub, hmax, hfreed (1, 4) (List.mem_cons_self _ _)⟩

end Spec2Proof
